import Mathlib

/-!
Shallow embedding of `KNeighborsClassifier`
(`src/algorithms/Classification/KNeighborsClassifier.ipynb`).

The notebook implements a brute-force k-nearest-neighbours classifier on
NumPy arrays.  We embed it over exact rationals (`ℚ`) for features and
integers (`ℤ`) for labels.

Modelling conventions, each tied to a concrete line of the source:

* Failures.  Python raises exceptions; the embedding returns
  `Except KNNError _`.  Each `KNNError` constructor is documented with the
  Python exception site it stands for.
* `np.array([x, x_train])` (inside `predict`) raises `ValueError` when the
  two rows have different lengths; since every call of
  `_calculate_distance_` goes through this pair construction, the length
  check is placed at the head of `calculateDistance`.
* The `euclidean` branch computes `np.sqrt(np.sum((a-b)**2))`.  The square
  root is a strictly monotone map fixing `0`, and the program uses the
  value only through `np.argsort` ranking and (in our theorems) equality
  with `0`; both are invariant under it.  The embedding therefore stores
  the radicand `Σ (aᵢ-bᵢ)²` as the scalar, keeping everything inside `ℚ`.
* The `manhattan` branch of the source returns `np.abs(points[0] - points[1])`
  — an elementwise *vector*, not a scalar sum.  The embedding reproduces
  this faithfully (`DistResult.vector`); the notebook's own markdown cell
  states the scalar formula `Σ |xᵢ-yᵢ|`, so this is the source bug the
  spec flags.
* An unrecognised metric string falls through every `elif` and the Python
  function returns `None`; the embedding returns `DistResult.noneResult`.
* `np.argsort` uses the default `quicksort` kind, whose tie order NumPy
  does not specify.  The embedding sorts indices by the lexicographic
  order on `(distance, index)` — i.e. a stable argsort.  Claims that are
  sensitive to the tie order of NumPy's introsort cannot be settled from
  the source and are treated accordingly.
* `np.bincount(arr).argmax()`: `bincount` of a non-empty array of
  non-negative integers has length `max+1` with occurrence counts;
  `argmax` returns the *first* index attaining the maximum.  `bincount`
  raises `ValueError` on a negative entry, and `argmax` raises
  `ValueError` on the empty result produced by `np.bincount([])`.
* `fit` stores its arguments unchecked; `predict` on a never-fitted
  instance raises `AttributeError` when it reads `self.X_train` (modelled
  by the `Option`-valued training fields being `none`).  That read sits
  inside the per-query loop body, so it fires only when at least one
  query is processed: an unfitted `predict([])` returns `[]`.
* The label gather `self.y_train[k_nearest]` is NumPy integer-array
  indexing: it raises `IndexError` on an out-of-range index (reachable,
  since `fit` is unchecked and may store fewer labels than features).
-/

/-- Failure modes of the embedded program.  Each constructor names the
Python exception the corresponding source line raises. -/
inductive KNNError where
  /-- `ValueError` from `np.array([x, x_train])` when the two vectors have
  different lengths (inhomogeneous shape). -/
  | dimensionMismatch
  /-- `AttributeError` from reading `self.X_train` before any `fit`. -/
  | notFitted
  /-- Failure of the ranking/vote pipeline when the per-point "distances"
  are not scalars: `np.argsort` on an object array of `None`
  (`TypeError`), or `np.bincount` on the 2-D array produced from
  vector-valued distances (`ValueError: object too deep`). -/
  | typeErr
  /-- `ValueError` from `np.bincount` on an array containing a negative
  entry. -/
  | negativeLabel
  /-- `ValueError` from `.argmax()` on the empty array `np.bincount([])`. -/
  | emptyArgmax
  /-- `ValueError` from `np.max` on an empty array (chebychev branch with
  zero-length vectors). -/
  | valueErr
  /-- `IndexError` from the fancy indexing `self.y_train[k_nearest]` when
  some selected index is out of range for the stored labels. -/
  | indexErr
deriving DecidableEq, Repr

/-- The value returned by `_calculate_distance_`: a scalar for the
`euclidean` / `chebychev` / `hemming` branches, an elementwise vector for
the `manhattan` branch, and Python's implicit `None` (here `noneResult`) when
no branch matches the metric string. -/
inductive DistResult where
  | scalar (q : ℚ)
  | vector (v : List ℚ)
  | noneResult
deriving DecidableEq, Repr

/-- The radicand `np.sum((points[0] - points[1])**2)` of the euclidean
branch (see the header note on `np.sqrt`). -/
def sqDist (a b : List ℚ) : ℚ :=
  ((a.zipWith (fun x y => (x - y) ^ 2) b)).sum

/-- The vector `np.abs(points[0] - points[1])` that the manhattan branch
returns. -/
def absDiff (a b : List ℚ) : List ℚ :=
  a.zipWith (fun x y => |x - y|) b

/-- The hemming branch,
`np.sum(points[0] != points[1]) / len(points[0])`. -/
def hemmingVal (a b : List ℚ) : ℚ :=
  ((a.zipWith (fun x y => if x = y then (0 : ℚ) else 1) b)).sum / (a.length : ℚ)

/-- The method `KNeighborsClassifier._calculate_distance_`, together with the
`np.array([x, x_train])` pair construction that feeds it (which raises on
a length mismatch before any branch runs).  Note the source's metric
strings: `'euclidean'`, `'manhattan'`, `'chebychev'`, `'hemming'`; any
other string falls through and Python returns `None`. -/
def calculateDistance (metric : String) (a b : List ℚ) :
    Except KNNError DistResult :=
  if a.length ≠ b.length then .error .dimensionMismatch
  else if metric = "euclidean" then .ok (.scalar (sqDist a b))
  else if metric = "manhattan" then .ok (.vector (absDiff a b))
  else if metric = "chebychev" then
    match absDiff a b with
    | [] => .error .valueErr
    | c :: cs => .ok (.scalar (cs.foldl max c))
  else if metric = "hemming" then .ok (.scalar (hemmingVal a b))
  else .ok .noneResult

/-- The classifier record.  `X_train`/`y_train` are `none` until `fit`
has run (the Python attributes simply do not exist before then). -/
structure KNeighborsClassifier where
  k : ℕ
  dist_metric : String
  X_train : Option (List (List ℚ))
  y_train : Option (List ℤ)
deriving DecidableEq, Repr

/-- The constructor `KNeighborsClassifier.__init__` (source defaults: `k=5`,
`dist_metric='euclidean'`).  It only stores the two fields; there is no
validation of any kind, so construction is a total function. -/
def init (k : ℕ) (dist_metric : String) : KNeighborsClassifier :=
  { k := k, dist_metric := dist_metric, X_train := none, y_train := none }

/-- The method `KNeighborsClassifier.fit`: stores `X` and `y` unchecked and returns
nothing (here: the updated record). -/
def fit (clf : KNeighborsClassifier) (X : List (List ℚ)) (y : List ℤ) :
    KNeighborsClassifier :=
  { clf with X_train := some X, y_train := some y }

/-- Maximum of a list of naturals (an `np.max`-style fold), used by
`bincount` for the table length and to phrase facts about count tables. -/
def listMaxNat (l : List ℕ) : ℕ := l.foldr max 0

/-- The function `np.argmax` on a list of naturals: the first index attaining the
maximum (`0` on the empty list, where NumPy raises — callers guard). -/
def argmaxIdx : List ℕ → ℕ
  | [] => 0
  | a :: l => if listMaxNat l ≤ a then 0 else argmaxIdx l + 1

/-- The function `np.bincount` on a list of integers assumed non-negative: for a
non-empty input, the length-`(max+1)` table of occurrence counts. -/
def bincount (l : List ℤ) : List ℕ :=
  (List.range (listMaxNat (l.map Int.toNat) + 1)).map fun (i : ℕ) => l.count ((i : ℕ) : ℤ)

/-- The method `KNeighborsClassifier._most_common_`, i.e.
`np.bincount(arr).argmax()`.  `bincount` raises on a negative entry;
`argmax` raises on the empty table produced from an empty `arr`. -/
def mostCommon (l : List ℤ) : Except KNNError ℤ :=
  if l.any (fun v => decide (v < 0)) then .error .negativeLabel
  else if l.isEmpty then .error .emptyArgmax
  else .ok ((argmaxIdx (bincount l) : ℕ) : ℤ)

/-- The comparison `np.argsort` sorts indices by: distance first, original
index second.  The index tiebreak makes the relation a linear order, i.e.
a *stable* argsort; NumPy's default `quicksort` does not document its tie
order (see the header note). -/
def rankLE (ds : List ℚ) (i j : ℕ) : Prop :=
  ds.getD i 0 < ds.getD j 0 ∨ (ds.getD i 0 = ds.getD j 0 ∧ i ≤ j)

instance rankLE.decRel (ds : List ℚ) : DecidableRel (rankLE ds) := fun _ _ =>
  inferInstanceAs (Decidable (_ ∨ _))

instance rankLE.total (ds : List ℚ) : IsTotal ℕ (rankLE ds) where
  total i j := by
    rcases lt_trichotomy (ds.getD i 0) (ds.getD j 0) with h | h | h
    · exact Or.inl (Or.inl h)
    · rcases Nat.le_total i j with hij | hij
      · exact Or.inl (Or.inr ⟨h, hij⟩)
      · exact Or.inr (Or.inr ⟨h.symm, hij⟩)
    · exact Or.inr (Or.inl h)

instance rankLE.trans (ds : List ℚ) : IsTrans ℕ (rankLE ds) where
  trans i j k hij hjk := by
    rcases hij with h₁ | ⟨e₁, le₁⟩
    · rcases hjk with h₂ | ⟨e₂, _⟩
      · exact Or.inl (h₁.trans h₂)
      · exact Or.inl (e₂ ▸ h₁)
    · rcases hjk with h₂ | ⟨e₂, le₂⟩
      · exact Or.inl (e₁ ▸ h₂)
      · exact Or.inr ⟨e₁.trans e₂, le₁.trans le₂⟩

/-- The call `np.argsort(distances)`: the permutation of `[0, …, n-1]` sorted by
`rankLE distances`. -/
def argsort (ds : List ℚ) : List ℕ :=
  List.insertionSort (rankLE ds) (List.range ds.length)

/-- Left-to-right effectful map over `Except`, modelling a Python list
comprehension / loop that propagates the first raised exception. -/
def mapExcept (f : α → Except KNNError β) : List α → Except KNNError (List β)
  | [] => .ok []
  | a :: as =>
    match f a with
    | .error e => .error e
    | .ok b =>
      match mapExcept f as with
      | .error e => .error e
      | .ok bs => .ok (b :: bs)

/-- One distance as consumed by `predict`'s ranking pipeline: the pair
construction plus `_calculate_distance_`, demanding a scalar result (a
vector or `None` entering `np.argsort`/`np.bincount` raises — see
`KNNError.typeErr`). -/
def scalarDist (metric : String) (a b : List ℚ) : Except KNNError ℚ :=
  match calculateDistance metric a b with
  | .error e => .error e
  | .ok (.scalar q) => .ok q
  | .ok (.vector _) => .error .typeErr
  | .ok .noneResult => .error .typeErr

/-- The label gather `self.y_train[k_nearest]`: NumPy integer-array
indexing, which raises `IndexError` as soon as an index is out of range
for the stored labels (the selected indices are argsort outputs, hence
never negative). -/
def gatherLabels (yt : List ℤ) (idx : List ℕ) : Except KNNError (List ℤ) :=
  mapExcept (fun i => if h : i < yt.length then .ok yt[i] else .error .indexErr)
    idx

/-- The body of `predict`'s per-query loop: distances to every training
point, `np.argsort(...)[:k]`, label gather, majority vote. -/
def predictOne (k : ℕ) (metric : String) (Xt : List (List ℚ)) (yt : List ℤ)
    (x : List ℚ) : Except KNNError ℤ :=
  match mapExcept (fun t => scalarDist metric x t) Xt with
  | .error e => .error e
  | .ok ds =>
    match gatherLabels yt ((argsort ds).take k) with
    | .error e => .error e
    | .ok ySorted => mostCommon ySorted

/-- The method `KNeighborsClassifier.predict`: maps the per-query body over
the queries in order.  The reads of `self.X_train`/`self.y_train` happen
inside the loop body, so the `AttributeError` of a never-fitted instance
fires only once there is a query to process: an unfitted `predict([])`
runs the loop zero times and returns `[]`. -/
def predict (clf : KNeighborsClassifier) (X : List (List ℚ)) :
    Except KNNError (List ℤ) :=
  mapExcept
    (fun x =>
      match clf.X_train, clf.y_train with
      | some Xt, some yt => predictOne clf.k clf.dist_metric Xt yt x
      | _, _ => .error .notFitted)
    X

/-- The method `KNeighborsClassifier.evaluate`:
`np.sum(self.predict(X) == y) / len(y)`.  The elementwise comparison is
modelled on the zipped lists (the claims only exercise equal lengths);
division is `ℚ` division. -/
def evaluate (clf : KNeighborsClassifier) (X : List (List ℚ)) (y : List ℤ) :
    Except KNNError ℚ :=
  match predict clf X with
  | .error e => .error e
  | .ok preds =>
    .ok ((((preds.zip y).countP fun p => decide (p.1 = p.2)) : ℚ) / (y.length : ℚ))

/-! Facts about `listMaxNat` and `argmaxIdx`. -/

theorem listMaxNat_cons (a : ℕ) (l : List ℕ) :
    listMaxNat (a :: l) = max a (listMaxNat l) := rfl

theorem le_listMaxNat {a : ℕ} {l : List ℕ} (h : a ∈ l) : a ≤ listMaxNat l := by
  induction l with
  | nil => cases h
  | cons b t ih =>
    rw [listMaxNat_cons]
    rcases List.mem_cons.mp h with rfl | h2
    · exact le_max_left _ _
    · exact (ih h2).trans (le_max_right _ _)

theorem listMaxNat_mem {l : List ℕ} (h : l ≠ []) : listMaxNat l ∈ l := by
  induction l with
  | nil => exact absurd rfl h
  | cons b t ih =>
    rcases eq_or_ne t [] with rfl | ht
    · simp [listMaxNat]
    · rw [listMaxNat_cons]
      rcases max_cases b (listMaxNat t) with ⟨h1, _⟩ | ⟨h1, _⟩
      · rw [h1]; exact List.mem_cons_self _ _
      · rw [h1]; exact List.mem_cons_of_mem _ (ih ht)

theorem argmaxIdx_lt_length {l : List ℕ} (h : l ≠ []) : argmaxIdx l < l.length := by
  induction l with
  | nil => exact absurd rfl h
  | cons a t ih =>
    rw [argmaxIdx]
    by_cases hc : listMaxNat t ≤ a
    · rw [if_pos hc]; simp
    · rw [if_neg hc]
      have ht : t ≠ [] := by
        rintro rfl
        exact hc (Nat.zero_le a)
      simpa [List.length_cons] using Nat.succ_lt_succ (ih ht)

theorem getD_argmaxIdx {l : List ℕ} (h : l ≠ []) :
    l.getD (argmaxIdx l) 0 = listMaxNat l := by
  induction l with
  | nil => exact absurd rfl h
  | cons a t ih =>
    rw [argmaxIdx, listMaxNat_cons]
    by_cases hc : listMaxNat t ≤ a
    · rw [if_pos hc, List.getD_cons_zero, Nat.max_eq_left hc]
    · have ht : t ≠ [] := by rintro rfl; exact hc (Nat.zero_le a)
      rw [if_neg hc, List.getD_cons_succ, ih ht, Nat.max_eq_right (le_of_not_le hc)]

theorem getD_lt_of_lt_argmaxIdx {l : List ℕ} {j : ℕ} (h : j < argmaxIdx l) :
    l.getD j 0 < listMaxNat l := by
  induction l generalizing j with
  | nil => rw [argmaxIdx] at h; exact absurd h (Nat.not_lt_zero j)
  | cons a t ih =>
    rw [argmaxIdx] at h
    by_cases hc : listMaxNat t ≤ a
    · rw [if_pos hc] at h; exact absurd h (Nat.not_lt_zero j)
    · rw [if_neg hc] at h
      rw [listMaxNat_cons, Nat.max_eq_right (le_of_not_le hc)]
      cases j with
      | zero => rw [List.getD_cons_zero]; exact lt_of_not_le hc
      | succ j => rw [List.getD_cons_succ]; exact ih (Nat.lt_of_succ_lt_succ h)

/-! Facts about `bincount` and `mostCommon`. -/

theorem bincount_length (l : List ℤ) :
    (bincount l).length = listMaxNat (l.map Int.toNat) + 1 := by
  rw [bincount, List.length_map, List.length_range]

theorem bincount_getD (l : List ℤ) {i : ℕ}
    (hi : i < listMaxNat (l.map Int.toNat) + 1) :
    (bincount l).getD i 0 = l.count (i : ℤ) := by
  rw [bincount]
  have hlen : i <
      ((List.range (listMaxNat (l.map Int.toNat) + 1)).map
        fun j => l.count ((j : ℕ) : ℤ)).length := by
    rw [List.length_map, List.length_range]; exact hi
  rw [List.getD_eq_getElem _ _ hlen, List.getElem_map, List.getElem_range]

theorem mostCommon_spec {l : List ℤ} (hne : l ≠ []) (hnn : ∀ v ∈ l, 0 ≤ v) :
    ∃ m, mostCommon l = .ok m ∧ m ∈ l ∧
      (∀ v ∈ l, l.count v ≤ l.count m) ∧
      (∀ v ∈ l, l.count v = l.count m → m ≤ v) := by
  have hany : l.any (fun v => decide (v < 0)) = false := by
    rw [List.any_eq_false]
    intro v hv
    simpa using not_lt.mpr (hnn v hv)
  have hemp : l.isEmpty = false := by
    rw [List.isEmpty_eq_false]
    exact hne
  have hok : mostCommon l = .ok ((argmaxIdx (bincount l) : ℕ) : ℤ) := by
    rw [mostCommon, hany, hemp]
    rfl
  have hbne : bincount l ≠ [] := by
    have h0 : 0 < (bincount l).length := by
      rw [bincount_length]; exact Nat.succ_pos _
    exact List.length_pos.mp h0
  have ha_lt : argmaxIdx (bincount l) < listMaxNat (l.map Int.toNat) + 1 := by
    have h0 := argmaxIdx_lt_length hbne
    rwa [bincount_length] at h0
  have hcountA : l.count ((argmaxIdx (bincount l) : ℕ) : ℤ) =
      listMaxNat (bincount l) := by
    rw [← getD_argmaxIdx hbne, bincount_getD l ha_lt]
  have key_le : ∀ v ∈ l, l.count v ≤ listMaxNat (bincount l) := by
    intro v hv
    have hv0 : 0 ≤ v := hnn v hv
    have htn : v.toNat ≤ listMaxNat (l.map Int.toNat) :=
      le_listMaxNat (List.mem_map_of_mem Int.toNat hv)
    have hcast : ((v.toNat : ℕ) : ℤ) = v := Int.toNat_of_nonneg hv0
    have h1 : l.count v = (bincount l).getD v.toNat 0 := by
      rw [bincount_getD l (Nat.lt_succ_of_le htn), hcast]
    have h2 : v.toNat < (bincount l).length := by
      rw [bincount_length]; exact Nat.lt_succ_of_le htn
    have h3 : (bincount l).getD v.toNat 0 ∈ bincount l := by
      rw [List.getD_eq_getElem _ _ h2]
      exact List.getElem_mem h2
    rw [h1]
    exact le_listMaxNat h3
  have hmem : ((argmaxIdx (bincount l) : ℕ) : ℤ) ∈ l := by
    obtain ⟨v₀, tl, heq⟩ := List.exists_cons_of_ne_nil hne
    have h1 : 0 < l.count v₀ := by
      rw [List.count_pos_iff, heq]; exact List.mem_cons_self _ _
    have h2 : 0 < l.count ((argmaxIdx (bincount l) : ℕ) : ℤ) := by
      calc 0 < l.count v₀ := h1
        _ ≤ listMaxNat (bincount l) := by
            apply key_le; rw [heq]; exact List.mem_cons_self _ _
        _ = l.count ((argmaxIdx (bincount l) : ℕ) : ℤ) := hcountA.symm
    exact List.count_pos_iff.mp h2
  refine ⟨((argmaxIdx (bincount l) : ℕ) : ℤ), hok, hmem, ?_, ?_⟩
  · intro v hv
    rw [hcountA]
    exact key_le v hv
  · intro v hv hcnt
    have hv0 : 0 ≤ v := hnn v hv
    have htn : v.toNat ≤ listMaxNat (l.map Int.toNat) :=
      le_listMaxNat (List.mem_map_of_mem Int.toNat hv)
    have hcast : ((v.toNat : ℕ) : ℤ) = v := Int.toNat_of_nonneg hv0
    have h1 : (bincount l).getD v.toNat 0 = l.count v := by
      rw [bincount_getD l (Nat.lt_succ_of_le htn), hcast]
    have h4 : argmaxIdx (bincount l) ≤ v.toNat := by
      by_contra hlt
      have h5 : v.toNat < argmaxIdx (bincount l) := Nat.lt_of_not_le hlt
      have h6 := getD_lt_of_lt_argmaxIdx h5
      rw [h1, hcnt, hcountA] at h6
      exact lt_irrefl _ h6
    calc ((argmaxIdx (bincount l) : ℕ) : ℤ)
        ≤ ((v.toNat : ℕ) : ℤ) := Int.ofNat_le.mpr h4
      _ = v := hcast

theorem mostCommon_singleton {v : ℤ} (h : 0 ≤ v) : mostCommon [v] = .ok v := by
  obtain ⟨m, hm, hmem, _, _⟩ :=
    mostCommon_spec (l := [v]) (by simp) (by simpa using h)
  rw [hm]
  rcases List.mem_singleton.mp hmem with rfl
  rfl

/-! Permutation invariance of the vote (needed because gathering the
labels along the sorted index list permutes the training labels). -/

theorem listMaxNat_perm {l₁ l₂ : List ℕ} (h : l₁.Perm l₂) :
    listMaxNat l₁ = listMaxNat l₂ := by
  rcases eq_or_ne l₁ [] with rfl | hne₁
  · rw [h.symm.eq_nil]
  · have hne₂ : l₂ ≠ [] := by
      intro h2
      subst h2
      exact hne₁ h.eq_nil
    apply Nat.le_antisymm
    · exact le_listMaxNat (h.mem_iff.mp (listMaxNat_mem hne₁))
    · exact le_listMaxNat (h.mem_iff.mpr (listMaxNat_mem hne₂))

theorem bincount_perm {l₁ l₂ : List ℤ} (h : l₁.Perm l₂) :
    bincount l₁ = bincount l₂ := by
  rw [bincount, bincount, listMaxNat_perm (h.map Int.toNat)]
  exact List.map_congr_left fun i _ => h.count_eq ((i : ℕ) : ℤ)

theorem any_neg_perm {l₁ l₂ : List ℤ} (h : l₁.Perm l₂) :
    l₁.any (fun v => decide (v < 0)) = l₂.any (fun v => decide (v < 0)) := by
  cases h2 : l₂.any (fun v => decide (v < 0)) with
  | true =>
    obtain ⟨x, hx, hpx⟩ := List.any_eq_true.mp h2
    exact List.any_eq_true.mpr ⟨x, h.mem_iff.mpr hx, hpx⟩
  | false =>
    rw [List.any_eq_false] at h2
    exact List.any_eq_false.mpr fun x hx => h2 x (h.mem_iff.mp hx)

theorem mostCommon_perm {l₁ l₂ : List ℤ} (h : l₁.Perm l₂) :
    mostCommon l₁ = mostCommon l₂ := by
  rcases eq_or_ne l₁ [] with rfl | hne₁
  · rw [h.symm.eq_nil]
  · have hne₂ : l₂ ≠ [] := by
      intro h2
      subst h2
      exact hne₁ h.eq_nil
    rw [mostCommon, mostCommon, any_neg_perm h, bincount_perm h,
      List.isEmpty_eq_false.mpr hne₁, List.isEmpty_eq_false.mpr hne₂]

/-! Facts about `argsort`. -/

theorem argsort_perm (ds : List ℚ) :
    (argsort ds).Perm (List.range ds.length) :=
  List.perm_insertionSort _ _

theorem argsort_length (ds : List ℚ) : (argsort ds).length = ds.length := by
  rw [(argsort_perm ds).length_eq, List.length_range]

theorem argsort_sorted (ds : List ℚ) :
    List.Sorted (rankLE ds) (argsort ds) :=
  List.sorted_insertionSort _ _

theorem mem_argsort {ds : List ℚ} {i : ℕ} : i ∈ argsort ds ↔ i < ds.length := by
  rw [(argsort_perm ds).mem_iff, List.mem_range]

theorem argsort_head_min {ds : List ℚ} {i₀ : ℕ} {rest : List ℕ}
    (h : argsort ds = i₀ :: rest) {j : ℕ} (hj : j < ds.length) :
    ds.getD i₀ 0 ≤ ds.getD j 0 := by
  have hjmem : j ∈ i₀ :: rest := by rw [← h, mem_argsort]; exact hj
  rcases List.mem_cons.mp hjmem with rfl | hjr
  · exact le_refl _
  · have hs := argsort_sorted ds
    rw [h, List.sorted_cons] at hs
    rcases hs.1 j hjr with hlt | ⟨heq, _⟩
    · exact le_of_lt hlt
    · exact le_of_eq heq

/-! Facts about `mapExcept`. -/

theorem mapExcept_ok_of_forall {α β : Type} {f : α → Except KNNError β}
    {g : α → β} :
    ∀ {X : List α}, (∀ a ∈ X, f a = .ok (g a)) →
      mapExcept f X = .ok (X.map g)
  | [], _ => rfl
  | a :: as, h => by
    rw [mapExcept, h a (List.mem_cons_self _ _),
      mapExcept_ok_of_forall fun x hx => h x (List.mem_cons_of_mem _ hx)]
    rfl

theorem mapExcept_exists_ok {α β : Type} {f : α → Except KNNError β} :
    ∀ {X : List α}, (∀ a ∈ X, ∃ b, f a = .ok b) →
      ∃ bs, mapExcept f X = .ok bs ∧ bs.length = X.length
  | [], _ => ⟨[], rfl, rfl⟩
  | a :: as, h => by
    obtain ⟨b, hb⟩ := h a (List.mem_cons_self _ _)
    obtain ⟨bs, hbs, hlen⟩ :=
      mapExcept_exists_ok fun x hx => h x (List.mem_cons_of_mem _ hx)
    refine ⟨b :: bs, ?_, by simpa using hlen⟩
    rw [mapExcept, hb, hbs]

theorem mapExcept_pointwise {α β : Type} {f : α → Except KNNError β} :
    ∀ {X : List α} {y : List β}, X.length = y.length →
      (∀ p ∈ X.zip y, f p.1 = .ok p.2) → mapExcept f X = .ok y
  | [], [], _, _ => rfl
  | [], _ :: _, hlen, _ => by simp at hlen
  | _ :: _, [], hlen, _ => by simp at hlen
  | a :: as, b :: bs, hlen, hp => by
    have h1 : f a = .ok b := hp (a, b) (by rw [List.zip_cons_cons]; exact List.mem_cons_self _ _)
    have h2 : mapExcept f as = .ok bs :=
      mapExcept_pointwise (by simpa using hlen)
        fun p hpm => hp p (by rw [List.zip_cons_cons]; exact List.mem_cons_of_mem _ hpm)
    rw [mapExcept, h1, h2]

theorem mapExcept_cons_error {α β : Type} {f : α → Except KNNError β}
    {a : α} {as : List α} {e : KNNError} (h : f a = .error e) :
    mapExcept f (a :: as) = .error e := by
  rw [mapExcept, h]

theorem mapExcept_error {α β : Type} {f : α → Except KNNError β}
    {e : KNNError} :
    ∀ {X : List α}, (∀ a ∈ X, (∃ b, f a = .ok b) ∨ f a = .error e) →
      (∃ a ∈ X, f a = .error e) → mapExcept f X = .error e
  | [], _, hex => by simp at hex
  | a :: as, hdi, hex => by
    rcases hdi a (List.mem_cons_self _ _) with ⟨b, hb⟩ | hb
    · have hex2 : ∃ x ∈ as, f x = .error e := by
        obtain ⟨x, hx, hfx⟩ := hex
        rcases List.mem_cons.mp hx with rfl | hx2
        · rw [hb] at hfx; cases hfx
        · exact ⟨x, hx2, hfx⟩
      have h2 : mapExcept f as = .error e :=
        mapExcept_error (fun x hx => hdi x (List.mem_cons_of_mem _ hx)) hex2
      rw [mapExcept, hb, h2]
    · exact mapExcept_cons_error hb

/-! Facts about `sqDist` (the euclidean radicand). -/

theorem sqDist_nonneg : ∀ (a b : List ℚ), 0 ≤ sqDist a b
  | [], _ => le_refl 0
  | _ :: _, [] => le_refl 0
  | x :: a, y :: b => by
    show 0 ≤ ((x :: a).zipWith (fun u v => (u - v) ^ 2) (y :: b)).sum
    rw [List.zipWith_cons_cons, List.sum_cons]
    exact add_nonneg (sq_nonneg _) (sqDist_nonneg a b)

theorem sqDist_self : ∀ (a : List ℚ), sqDist a a = 0
  | [] => rfl
  | x :: a => by
    show (((x :: a).zipWith (fun u v => (u - v) ^ 2) (x :: a))).sum = 0
    rw [List.zipWith_cons_cons, List.sum_cons, sub_self]
    rw [show ((0 : ℚ) ^ 2) = 0 by norm_num, zero_add]
    exact sqDist_self a

theorem sqDist_eq_zero : ∀ {a b : List ℚ},
    a.length = b.length → sqDist a b = 0 → a = b
  | [], [], _, _ => rfl
  | [], _ :: _, hlen, _ => by simp at hlen
  | _ :: _, [], hlen, _ => by simp at hlen
  | x :: a, y :: b, hlen, hz => by
    have hz2 : (x - y) ^ 2 + sqDist a b = 0 := by
      have : sqDist (x :: a) (y :: b) = (x - y) ^ 2 + sqDist a b := by
        show (((x :: a).zipWith (fun u v => (u - v) ^ 2) (y :: b))).sum = _
        rw [List.zipWith_cons_cons, List.sum_cons]
        rfl
      rw [← this]
      exact hz
    have hparts := (add_eq_zero_iff_of_nonneg (sq_nonneg _) (sqDist_nonneg a b)).mp hz2
    have hxy : x = y := by
      have h3 : x - y = 0 := by
        have := hparts.1
        exact pow_eq_zero_iff (two_ne_zero) |>.mp this
      linarith
    have htail : a = b := sqDist_eq_zero (by simpa using hlen) hparts.2
    rw [hxy, htail]

/-! Facts about `calculateDistance` and `scalarDist`. -/

theorem calculateDistance_dim {metric : String} {a b : List ℚ}
    (h : a.length ≠ b.length) :
    calculateDistance metric a b = .error .dimensionMismatch := by
  rw [calculateDistance, if_pos h]

theorem calculateDistance_euclidean {a b : List ℚ} (h : a.length = b.length) :
    calculateDistance "euclidean" a b = .ok (.scalar (sqDist a b)) := by
  rw [calculateDistance, if_neg (fun hc => hc h), if_pos rfl]

theorem scalarDist_dim {metric : String} {a b : List ℚ}
    (h : a.length ≠ b.length) :
    scalarDist metric a b = .error .dimensionMismatch := by
  rw [scalarDist, calculateDistance_dim h]

theorem scalarDist_euclidean {a b : List ℚ} (h : a.length = b.length) :
    scalarDist "euclidean" a b = .ok (sqDist a b) := by
  rw [scalarDist, calculateDistance_euclidean h]

theorem scalarDist_ok_of_metric {metric : String} {a b : List ℚ}
    (hm : metric = "euclidean" ∨ metric = "chebychev" ∨ metric = "hemming")
    (hlen : a.length = b.length) (hne : a ≠ []) :
    ∃ q, scalarDist metric a b = .ok q := by
  rcases hm with rfl | rfl | rfl
  · exact ⟨sqDist a b, scalarDist_euclidean hlen⟩
  · have habs : absDiff a b ≠ [] := by
      have h1 : 0 < (absDiff a b).length := by
        rw [absDiff, List.length_zipWith, hlen, min_self, ← hlen]
        exact List.length_pos.mpr hne
      exact List.length_pos.mp h1
    obtain ⟨c, cs, hcons⟩ := List.exists_cons_of_ne_nil habs
    refine ⟨cs.foldl max c, ?_⟩
    rw [scalarDist, calculateDistance, if_neg (fun hc => hc hlen),
      if_neg (by decide), if_neg (by decide), if_pos rfl, hcons]
  · refine ⟨hemmingVal a b, ?_⟩
    rw [scalarDist, calculateDistance, if_neg (fun hc => hc hlen),
      if_neg (by decide), if_neg (by decide), if_neg (by decide), if_pos rfl]

/-! Small `List` helpers. -/

theorem getD_int_nonneg {l : List ℤ} (h : ∀ v ∈ l, 0 ≤ v) (i : ℕ) :
    0 ≤ l.getD i 0 := by
  rcases Nat.lt_or_ge i l.length with hi | hi
  · rw [List.getD_eq_getElem _ _ hi]
    exact h _ (List.getElem_mem hi)
  · rw [List.getD_eq_default _ _ hi]

theorem getD_map_range_int (l : List ℤ) :
    (List.range l.length).map (fun (i : ℕ) => l.getD i 0) = l := by
  apply List.ext_getElem
  · rw [List.length_map, List.length_range]
  · intro n h1 h2
    rw [List.getElem_map, List.getElem_range, List.getD_eq_getElem _ _ h2]

theorem take_ne_nil_of_pos {α : Type} {k : ℕ} {l : List α}
    (hk : 0 < k) (hl : l ≠ []) : l.take k ≠ [] := by
  obtain ⟨a, t, rfl⟩ := List.exists_cons_of_ne_nil hl
  cases k with
  | zero => cases hk
  | succ k => rw [List.take_succ_cons]; exact List.cons_ne_nil _ _

theorem countP_zip_self (y : List ℤ) :
    (y.zip y).countP (fun p => decide (p.1 = p.2)) = y.length := by
  induction y with
  | nil => rfl
  | cons a t ih =>
    rw [List.zip_cons_cons, List.countP_cons, ih]
    simp

/-! Facts about `gatherLabels` and `predictOne`. -/

theorem gatherLabels_ok {yt : List ℤ} {idx : List ℕ}
    (h : ∀ i ∈ idx, i < yt.length) :
    gatherLabels yt idx = .ok (idx.map fun i => yt.getD i 0) := by
  apply mapExcept_ok_of_forall
  intro i hi
  rw [dif_pos (h i hi), List.getD_eq_getElem _ _ (h i hi)]

theorem predictOne_ok {k : ℕ} {metric : String} {Xt : List (List ℚ)}
    {yt : List ℤ} {x : List ℚ}
    (hsd : ∀ t ∈ Xt, ∃ q, scalarDist metric x t = .ok q)
    (hlen : Xt.length = yt.length)
    (hne : Xt ≠ []) (hk : 0 < k) (hnn : ∀ v ∈ yt, 0 ≤ v) :
    ∃ v, predictOne k metric Xt yt x = .ok v := by
  obtain ⟨ds, hds, hdslen⟩ := mapExcept_exists_ok hsd
  have hidx : ∀ i ∈ (argsort ds).take k, i < yt.length := by
    intro i hi
    have h5 := List.mem_of_mem_take hi
    rw [mem_argsort] at h5
    rw [← hlen, ← hdslen]
    exact h5
  have hdsne : ds ≠ [] := by
    rw [← List.length_pos, hdslen, List.length_pos]
    exact hne
  have h1 : argsort ds ≠ [] := by
    rw [← List.length_pos, argsort_length, List.length_pos]
    exact hdsne
  have h2 : (argsort ds).take k ≠ [] := take_ne_nil_of_pos hk h1
  have h3 : ((argsort ds).take k).map (fun i => yt.getD i 0) ≠ [] := by
    simpa using h2
  have h4 : ∀ v ∈ ((argsort ds).take k).map (fun i => yt.getD i 0), 0 ≤ v := by
    intro v hv
    obtain ⟨i, _, rfl⟩ := List.mem_map.mp hv
    exact getD_int_nonneg hnn i
  obtain ⟨m, hm, _, _, _⟩ := mostCommon_spec h3 h4
  refine ⟨m, ?_⟩
  rw [predictOne, hds]
  show (match gatherLabels yt ((argsort ds).take k) with
    | Except.error e => Except.error e
    | Except.ok ySorted => mostCommon ySorted) = .ok m
  rw [gatherLabels_ok hidx]
  exact hm

theorem predictOne_dim {k : ℕ} {metric : String} {Xt : List (List ℚ)}
    {yt : List ℤ} {x : List ℚ} {d : ℕ}
    (hdim : ∀ u ∈ Xt, u.length = d) (hne : Xt ≠ []) (hx : x.length ≠ d) :
    predictOne k metric Xt yt x = .error .dimensionMismatch := by
  obtain ⟨t₀, rest, rfl⟩ := List.exists_cons_of_ne_nil hne
  have h0 : x.length ≠ t₀.length := by
    rw [hdim t₀ (List.mem_cons_self _ _)]
    exact hx
  rw [predictOne, mapExcept_cons_error (scalarDist_dim h0)]

theorem predictOne_all {k : ℕ} {metric : String} {Xt : List (List ℚ)}
    {yt : List ℤ} {x : List ℚ}
    (hsd : ∀ t ∈ Xt, ∃ q, scalarDist metric x t = .ok q)
    (hlen : Xt.length = yt.length) (hk : yt.length ≤ k) :
    predictOne k metric Xt yt x = mostCommon yt := by
  obtain ⟨ds, hds, hdslen⟩ := mapExcept_exists_ok hsd
  rw [predictOne, hds]
  show (match gatherLabels yt ((argsort ds).take k) with
    | Except.error e => Except.error e
    | Except.ok ySorted => mostCommon ySorted) = mostCommon yt
  have h1 : (argsort ds).take k = argsort ds :=
    List.take_of_length_le (by rw [argsort_length, hdslen, hlen]; exact hk)
  rw [h1]
  have hidx : ∀ i ∈ argsort ds, i < yt.length := by
    intro i hi
    rw [mem_argsort] at hi
    rw [← hlen, ← hdslen]
    exact hi
  rw [gatherLabels_ok hidx]
  show mostCommon ((argsort ds).map fun i => yt.getD i 0) = mostCommon yt
  have h2 := (argsort_perm ds).map fun (i : ℕ) => yt.getD i 0
  rw [hdslen, hlen, getD_map_range_int yt] at h2
  exact mostCommon_perm h2

theorem predictOne_self {tf : List (List ℚ)} {ly : List ℤ} {q : List ℚ}
    {t : ℤ} {d : ℕ}
    (hdim : ∀ u ∈ tf, u.length = d)
    (hlen : tf.length = ly.length)
    (hnn : ∀ v ∈ ly, 0 ≤ v)
    (hqd : q.length = d)
    (hmem : ∃ i, ∃ hi : i < tf.length, tf[i] = q)
    (hcons : ∀ i, ∀ hi : i < tf.length, tf[i] = q → ly.getD i 0 = t) :
    predictOne 1 "euclidean" tf ly q = .ok t := by
  have hds : mapExcept (fun u => scalarDist "euclidean" q u) tf =
      .ok (tf.map fun u => sqDist q u) := by
    apply mapExcept_ok_of_forall
    intro u hu
    exact scalarDist_euclidean (by rw [hqd, hdim u hu])
  have hdslen : (tf.map fun u => sqDist q u).length = tf.length :=
    List.length_map _ _
  obtain ⟨iq, hiq, hiq_eq⟩ := hmem
  have htfne : tf ≠ [] := by
    rw [← List.length_pos]
    exact Nat.lt_of_le_of_lt (Nat.zero_le iq) hiq
  have hdsne : tf.map (fun u => sqDist q u) ≠ [] := by
    rw [← List.length_pos, hdslen, List.length_pos]
    exact htfne
  have hargne : argsort (tf.map fun u => sqDist q u) ≠ [] := by
    rw [← List.length_pos, argsort_length, List.length_pos]
    exact hdsne
  obtain ⟨i₀, rest, hsorted⟩ := List.exists_cons_of_ne_nil hargne
  have hgetD_map : ∀ i (hi : i < tf.length),
      (tf.map fun u => sqDist q u).getD i 0 = sqDist q tf[i] := by
    intro i hi
    have h2 : i < (tf.map fun u => sqDist q u).length := by rw [hdslen]; exact hi
    rw [List.getD_eq_getElem _ _ h2, List.getElem_map]
  have hi₀_lt : i₀ < tf.length := by
    have h3 : i₀ ∈ argsort (tf.map fun u => sqDist q u) := by
      rw [hsorted]; exact List.mem_cons_self _ _
    rw [mem_argsort, hdslen] at h3
    exact h3
  have hmin : sqDist q tf[i₀] ≤ sqDist q tf[iq] := by
    have h4 := argsort_head_min hsorted (j := iq) (by rw [hdslen]; exact hiq)
    rwa [hgetD_map i₀ hi₀_lt, hgetD_map iq hiq] at h4
  have hzero : sqDist q tf[i₀] = 0 := by
    apply le_antisymm
    · calc sqDist q tf[i₀] ≤ sqDist q tf[iq] := hmin
        _ = sqDist q q := by rw [hiq_eq]
        _ = 0 := sqDist_self q
    · exact sqDist_nonneg _ _
  have hqeq : tf[i₀] = q :=
    (sqDist_eq_zero (by rw [hqd, hdim tf[i₀] (List.getElem_mem hi₀_lt)]) hzero).symm
  have hlabel : ly.getD i₀ 0 = t := hcons i₀ hi₀_lt hqeq
  have htnn : 0 ≤ t := hlabel ▸ getD_int_nonneg hnn i₀
  rw [predictOne, hds]
  show (match gatherLabels ly
      ((argsort (tf.map fun u => sqDist q u)).take 1) with
    | Except.error e => Except.error e
    | Except.ok ySorted => mostCommon ySorted) = .ok t
  rw [hsorted, List.take_succ_cons, List.take_zero]
  have hidx : ∀ i ∈ [i₀], i < ly.length := by
    intro i hi
    rw [List.mem_singleton] at hi
    subst hi
    rw [← hlen]
    exact hi₀_lt
  rw [gatherLabels_ok hidx]
  show mostCommon ([i₀].map fun i => ly.getD i 0) = .ok t
  rw [List.map_singleton, hlabel]
  exact mostCommon_singleton htnn

/-! The claims. -/

/-- C1: the claim says the manhattan metric is the scalar sum of
elementwise absolute differences.  The source instead returns the
elementwise absolute-difference vector itself (its own markdown cell
documents the scalar-sum formula, so this is a bug in the code): on any
equal-length pair the manhattan branch yields the vector of absolute
differences, and concretely on a=[1,2], b=[3,5] it yields [2,3] — a
vector, never equal to any scalar, rather than the scalar 5. -/
theorem C1_manhattan_returns_vector :
    (∀ a b : List ℚ, a.length = b.length →
      calculateDistance "manhattan" a b = .ok (.vector (absDiff a b))) ∧
    calculateDistance "manhattan" [1, 2] [3, 5] = .ok (.vector [2, 3]) ∧
    (∀ s : ℚ, DistResult.vector [2, 3] ≠ DistResult.scalar s) := by
  refine ⟨?_, ?_, ?_⟩
  · intro a b h
    rw [calculateDistance, if_neg (fun hc => hc h), if_neg (by decide),
      if_pos rfl]
  · have h1 : absDiff [1, 2] [3, 5] = [2, 3] := by
      norm_num [absDiff]
    rw [calculateDistance, if_neg (by decide), if_neg (by decide),
      if_pos rfl, h1]
  · intro s h
    cases h

/-- C3: the claim says constructing a classifier with a metric name
outside the enumeration fails with InvalidConfig and that no distance
computation ever runs with an unrecognized metric.  The source performs
no validation whatsoever — construction is a total function that stores
any string — and an unrecognized metric (including the spec spellings
"hamming" and "chebyshev": the code only knows "hemming" and
"chebychev") flows into the distance computation, which silently returns
the Python value None.  The claim describes the spec-mandated fix; the
silent fall-through is the code bug the spec flags. -/
theorem C3_no_construction_validation :
    init 5 "hamming" =
      { k := 5, dist_metric := "hamming", X_train := none, y_train := none } ∧
    calculateDistance "hamming" [0] [1] = .ok .noneResult ∧
    calculateDistance "chebyshev" [0] [1] = .ok .noneResult := by
  refine ⟨rfl, ?_, ?_⟩
  · simp +decide [calculateDistance]
  · simp +decide [calculateDistance]

/-- C4: in the majority vote over the selected labels, the result has the
highest count, and a tie between equally frequent labels resolves to the
smaller label value (np.bincount orders the frequency table by label
value and argmax takes the first maximum). -/
theorem C4_majority_vote (l : List ℤ) (hne : l ≠ []) (hnn : ∀ v ∈ l, 0 ≤ v) :
    ∃ m, mostCommon l = .ok m ∧ m ∈ l ∧
      (∀ v ∈ l, l.count v ≤ l.count m) ∧
      (∀ v ∈ l, l.count v = l.count m → m ≤ v) :=
  mostCommon_spec hne hnn

/-- C4 witness: on the labels [2, 1, 2, 1, 3], counts are 1 ↦ 2, 2 ↦ 2,
3 ↦ 1; the vote returns the smaller of the two tied labels. -/
theorem C4_majority_vote_witness :
    ∃ m, mostCommon [2, 1, 2, 1, 3] = .ok m ∧ m ∈ ([2, 1, 2, 1, 3] : List ℤ) ∧
      (∀ v ∈ ([2, 1, 2, 1, 3] : List ℤ),
        List.count v ([2, 1, 2, 1, 3] : List ℤ) ≤
          List.count m ([2, 1, 2, 1, 3] : List ℤ)) ∧
      (∀ v ∈ ([2, 1, 2, 1, 3] : List ℤ),
        List.count v ([2, 1, 2, 1, 3] : List ℤ) =
          List.count m ([2, 1, 2, 1, 3] : List ℤ) → m ≤ v) := by
  exact C4_majority_vote [2, 1, 2, 1, 3] (by decide) (by decide)

/-- C5 counterexample: the claim as stated fails.  Training set
features [[0],[0]] with labels [0,1], k=1, query [[0]] with true label 1:
the query/label pair ([0],1) is literally one of the training pairs, yet
the stored duplicate feature [0] with the other label 0 is at distance 0
as well and sits at a lower index, so the 1-nearest neighbour is label 0
and the accuracy is 0, not 1. -/
theorem C5_subset_counterexample :
    (∀ p ∈ [[(0 : ℚ)]].zip [(1 : ℤ)],
      p ∈ [[(0 : ℚ)], [(0 : ℚ)]].zip [(0 : ℤ), 1]) ∧
    evaluate (fit (init 1 "euclidean") [[0], [0]] [0, 1]) [[0]] [1] = .ok 0 ∧
    (Except.ok (0 : ℚ) : Except KNNError ℚ) ≠ .ok 1 := by
  refine ⟨?_, ?_, ?_⟩
  · intro p hp
    simp only [List.zip_cons_cons, List.zip_nil_right, List.mem_singleton] at hp
    subst hp
    simp
  · simp +decide [evaluate, predict, fit, init, predictOne, gatherLabels, mapExcept,
      scalarDist, calculateDistance, sqDist, argsort, List.insertionSort,
      List.orderedInsert, rankLE, mostCommon, bincount, argmaxIdx, listMaxNat]
  · intro h
    rw [Except.ok.injEq] at h
    norm_num at h

/-- C5 amended: with k=1 and the euclidean metric, evaluate returns
exactly 1.0 whenever the queries are non-empty, each query/label pair
occurs among the training pairs, and every training point whose feature
vector equals a query carries that query's true label (the original
claim fails when duplicate training features carry conflicting labels,
and on empty queries, where Python divides by zero).  Dimension
homogeneity and non-negative integer labels are the data-model
invariants. -/
theorem C5_subset_accuracy_one (tf : List (List ℚ)) (ly : List ℤ)
    (X : List (List ℚ)) (y : List ℤ) (d : ℕ)
    (hdim : ∀ u ∈ tf, u.length = d)
    (hlen : tf.length = ly.length)
    (hnn : ∀ v ∈ ly, 0 ≤ v)
    (hXlen : X.length = y.length)
    (hXne : X ≠ [])
    (hsub : ∀ p ∈ X.zip y, p ∈ tf.zip ly)
    (hcons : ∀ p ∈ X.zip y, ∀ u ∈ tf.zip ly, u.1 = p.1 → u.2 = p.2) :
    evaluate (fit (init 1 "euclidean") tf ly) X y = .ok 1 := by
  have hzlen : (tf.zip ly).length = tf.length := by
    rw [List.length_zip, hlen, min_self]
  have hpred : predict (fit (init 1 "euclidean") tf ly) X = .ok y := by
    show mapExcept (predictOne 1 "euclidean" tf ly) X = .ok y
    apply mapExcept_pointwise hXlen
    intro p hp
    have hqmem : p.1 ∈ tf := (List.of_mem_zip (hsub p hp)).1
    apply predictOne_self hdim hlen hnn (hdim p.1 hqmem)
    · obtain ⟨n, hn, hget⟩ := List.mem_iff_getElem.mp (hsub p hp)
      have hn2 : n < tf.length := by rwa [hzlen] at hn
      refine ⟨n, hn2, ?_⟩
      rw [List.getElem_zip] at hget
      rw [← hget]
    · intro i hi heq
      have hi2 : i < (tf.zip ly).length := by rw [hzlen]; exact hi
      have hi3 : i < ly.length := by rw [← hlen]; exact hi
      have hu : (tf[i], ly[i]) ∈ tf.zip ly := by
        have h5 := List.getElem_mem hi2
        rwa [List.getElem_zip] at h5
      have h2 := hcons p hp (tf[i], ly[i]) hu heq
      rw [List.getD_eq_getElem _ _ hi3]
      exact h2
  have hylen : (y.length : ℚ) ≠ 0 := by
    rw [Nat.cast_ne_zero, ← hXlen]
    intro h0
    exact hXne (List.length_eq_zero.mp h0)
  rw [evaluate, hpred]
  show Except.ok (((((y.zip y).countP fun p => decide (p.1 = p.2)) : ℕ) : ℚ) /
    (y.length : ℚ)) = .ok 1
  rw [countP_zip_self, div_self hylen]

/-- C5 witness: training features [[0],[1]] with labels [0,1], k=1,
queries [[1]] with true labels [1]: a concrete instance of the amended
claim, with accuracy exactly 1. -/
theorem C5_subset_accuracy_one_witness :
    evaluate (fit (init 1 "euclidean") [[0], [1]] [0, 1]) [[1]] [1] = .ok 1 := by
  apply C5_subset_accuracy_one [[0], [1]] [0, 1] [[1]] [1] 1
  · decide
  · decide
  · decide
  · decide
  · decide
  · intro p hp
    simp only [List.zip_cons_cons, List.zip_nil_right, List.mem_singleton] at hp
    subst hp
    simp
  · intro p hp u hu h1
    simp only [List.zip_cons_cons, List.zip_nil_right, List.mem_singleton] at hp
    subst hp
    simp only [List.zip_cons_cons, List.zip_nil_right, List.mem_cons,
      List.not_mem_nil, or_false, List.mem_singleton] at hu
    rcases hu with rfl | rfl
    · exfalso
      simp only [List.cons.injEq, and_true] at h1
      norm_num at h1
    · rfl

/-- C6 counterexample: the claim quantifies over every fitted classifier,
but a fitted classifier whose metric is "manhattan" errors out of predict
even with k greater than the training-set size, because the manhattan
branch produces vector-valued distances that break the ranking/vote
pipeline (C1).  Training set [[0]] with label [0], k=2 > 1. -/
theorem C6_clamp_counterexample :
    1 < (fit (init 2 "manhattan") [[0]] [0]).k ∧
    (fit (init 2 "manhattan") [[0]] [0]).X_train = some [[0]] ∧
    predict (fit (init 2 "manhattan") [[0]] [0]) [[1]] = .error .typeErr := by
  refine ⟨by decide, rfl, ?_⟩
  simp +decide [predict, fit, init, predictOne, gatherLabels, mapExcept, scalarDist,
    calculateDistance, absDiff]

/-- C6 amended: for every fitted classifier whose metric is one of the
scalar-valued branches the code implements ("euclidean", "chebychev",
"hemming"), with homogeneous non-trivial dimensions, non-negative labels
and a non-empty training set, when k exceeds the number of training
points predict does not error: the slice [:k] clamps to the whole
training set and every query's vote is the majority vote over all
training labels. -/
theorem C6_clamped_to_all (k : ℕ) (metric : String) (tf : List (List ℚ))
    (ly : List ℤ) (X : List (List ℚ)) (d : ℕ)
    (hmet : metric = "euclidean" ∨ metric = "chebychev" ∨ metric = "hemming")
    (hd : 0 < d)
    (hdim : ∀ u ∈ tf, u.length = d)
    (hXdim : ∀ q ∈ X, q.length = d)
    (hlen : tf.length = ly.length)
    (hnn : ∀ v ∈ ly, 0 ≤ v)
    (hne : tf ≠ [])
    (hk : ly.length < k) :
    ∃ v, mostCommon ly = .ok v ∧
      predict (fit (init k metric) tf ly) X = .ok (X.map fun _ => v) := by
  have hlyne : ly ≠ [] := by
    rw [← List.length_pos, ← hlen, List.length_pos]
    exact hne
  obtain ⟨v, hv, _, _, _⟩ := mostCommon_spec hlyne hnn
  refine ⟨v, hv, ?_⟩
  show mapExcept (predictOne k metric tf ly) X = .ok (X.map fun _ => v)
  apply mapExcept_ok_of_forall
  intro x hx
  have hone : predictOne k metric tf ly x = mostCommon ly := by
    apply predictOne_all
    · intro t ht
      apply scalarDist_ok_of_metric hmet
      · rw [hXdim x hx, hdim t ht]
      · rw [← List.length_pos, hXdim x hx]
        exact hd
    · exact hlen
    · exact Nat.le_of_lt hk
  rw [hone, hv]

/-- C6 witness: training features [[0],[1]] with labels [0,1], k=3 > 2,
euclidean metric, query [[5]]: predict succeeds and returns the overall
majority vote (the tie between labels 0 and 1 resolves to 0). -/
theorem C6_clamped_to_all_witness :
    predict (fit (init 3 "euclidean") [[0], [1]] [0, 1]) [[5]] = .ok [0] := by
  obtain ⟨v, hv, hp⟩ :=
    C6_clamped_to_all 3 "euclidean" [[0], [1]] [0, 1] [[5]] 1
      (Or.inl rfl) (by decide) (by decide) (by decide) (by decide)
      (by decide) (by decide) (by decide)
  have h0 : mostCommon [0, 1] = .ok 0 := by
    simp +decide [mostCommon, bincount, argmaxIdx, listMaxNat]
  rw [h0] at hv
  rw [Except.ok.injEq] at hv
  rw [← hv] at hp
  simpa using hp

/-- C7 counterexample: the claim says predict on a never-fitted
classifier fails with NotFitted, unconditionally.  But the source reads
self.X_train only inside the per-query loop body, so with an empty query
list the loop runs zero times, the missing attribute is never touched,
and predict returns the empty prediction list rather than failing. -/
theorem C7_unfitted_empty_counterexample :
    predict (init 5 "euclidean") [] = .ok [] ∧
    (Except.ok ([] : List ℤ) : Except KNNError (List ℤ)) ≠
      .error .notFitted := by
  refine ⟨rfl, ?_⟩
  intro h
  cases h

/-- C7 amended: calling predict on a classifier on which fit has never
been called fails whenever there is at least one query (the loop body
reads the non-existent attribute self.X_train and raises; NotFitted is
the spec's name for this failure mode), and evaluate, which wraps
predict, fails the same way on a non-empty query list. -/
theorem C7_not_fitted (k : ℕ) (metric : String) (X : List (List ℚ))
    (y : List ℤ) (hX : X ≠ []) :
    predict (init k metric) X = .error .notFitted ∧
    evaluate (init k metric) X y = .error .notFitted := by
  obtain ⟨x, xs, rfl⟩ := List.exists_cons_of_ne_nil hX
  have h1 : predict (init k metric) (x :: xs) = .error .notFitted :=
    mapExcept_cons_error rfl
  refine ⟨h1, ?_⟩
  rw [evaluate, h1]

/-- C7 witness: a never-fitted classifier with one query: predict and
evaluate both fail with the not-fitted error. -/
theorem C7_not_fitted_witness :
    predict (init 5 "euclidean") [[0]] = .error .notFitted ∧
    evaluate (init 5 "euclidean") [[0]] [0] = .error .notFitted :=
  C7_not_fitted 5 "euclidean" [[0]] [0] (by decide)

/-- C8 counterexample: the claim says fit fails with InvalidInput on
mismatched lengths or empty labels.  The source's fit performs no
validation at all: with 1 feature row and 2 labels it succeeds and
stores both, and it also accepts an entirely empty dataset. -/
theorem C8_fit_counterexample :
    fit (init 5 "euclidean") [[0]] [0, 1] =
      { k := 5, dist_metric := "euclidean", X_train := some [[0]],
        y_train := some [0, 1] } ∧
    ([[(0 : ℚ)]] : List (List ℚ)).length ≠ ([0, 1] : List ℤ).length ∧
    fit (init 5 "euclidean") [] [] =
      { k := 5, dist_metric := "euclidean", X_train := some [],
        y_train := some [] } := by
  exact ⟨rfl, by decide, rfl⟩

/-- C8 amended: fit never fails; on every input — including mismatched
lengths and empty labels — it stores the features and labels on the
classifier, leaves k and the metric unchanged, returns nothing, and a
subsequent fit wholesale-replaces the stored dataset. -/
theorem C8_fit_stores_unchecked (clf : KNeighborsClassifier)
    (X : List (List ℚ)) (y : List ℤ) :
    (fit clf X y).X_train = some X ∧ (fit clf X y).y_train = some y ∧
    (fit clf X y).k = clf.k ∧
    (fit clf X y).dist_metric = clf.dist_metric ∧
    (∀ X2 y2, fit (fit clf X y) X2 y2 = fit clf X2 y2) :=
  ⟨rfl, rfl, rfl, rfl, fun _ _ => rfl⟩

/-- C9: every distance-metric computation on two feature vectors of
different lengths fails with DimensionMismatch (the np.array pair
construction raises before any branch runs), and predict on a fitted
classifier (euclidean metric, homogeneous training dimensions, as many
labels as training points, non-negative labels, positive k) fails with
DimensionMismatch as soon as some query vector's dimensionality differs
from the training set's. -/
theorem C9_dimension_mismatch (k : ℕ) (tf : List (List ℚ)) (ly : List ℤ)
    (X : List (List ℚ)) (d : ℕ)
    (hdim : ∀ u ∈ tf, u.length = d)
    (hlen : tf.length = ly.length)
    (hnn : ∀ v ∈ ly, 0 ≤ v)
    (hne : tf ≠ [])
    (hk : 0 < k)
    (hbad : ∃ q ∈ X, q.length ≠ d) :
    (∀ (metric : String) (a b : List ℚ), a.length ≠ b.length →
      calculateDistance metric a b = .error .dimensionMismatch) ∧
    predict (fit (init k "euclidean") tf ly) X = .error .dimensionMismatch := by
  constructor
  · intro metric a b h
    exact calculateDistance_dim h
  · show mapExcept (predictOne k "euclidean" tf ly) X =
      .error .dimensionMismatch
    apply mapExcept_error
    · intro q hq
      by_cases hqd : q.length = d
      · left
        apply predictOne_ok
        · intro t ht
          exact ⟨sqDist q t, scalarDist_euclidean (by rw [hqd, hdim t ht])⟩
        · exact hlen
        · exact hne
        · exact hk
        · exact hnn
      · right
        exact predictOne_dim hdim hne hqd
    · obtain ⟨q, hq, hqd⟩ := hbad
      exact ⟨q, hq, predictOne_dim hdim hne hqd⟩

/-- C9 witness: training feature [[0]] (dimension 1) with label [0],
k=1: the 2-dimensional query [0, 1] makes predict fail with the
dimension-mismatch error, and the first conjunct instantiates to all
metrics. -/
theorem C9_dimension_mismatch_witness :
    (∀ (metric : String) (a b : List ℚ), a.length ≠ b.length →
      calculateDistance metric a b = .error .dimensionMismatch) ∧
    predict (fit (init 1 "euclidean") [[0]] [0]) [[0, 1]] =
      .error .dimensionMismatch := by
  exact C9_dimension_mismatch 1 [[0]] [0] [[0, 1]] 1
    (by decide) (by decide) (by decide) (by decide) (by decide) (by decide)

/-- C10: predict is only defined when the training labels are
non-negative integers — np.bincount builds a frequency table indexed by
label value and raises on a negative entry.  On the fitted state with
training features [[0],[1]] and labels [-1,0], k=1, predict on query
[[0]] fails with the negative-label error; with labels [1,0] instead
(same geometry) it returns a label. -/
theorem C10_negative_label_fails :
    predict (fit (init 1 "euclidean") [[0], [1]] [-1, 0]) [[0]] =
      .error .negativeLabel ∧
    predict (fit (init 1 "euclidean") [[0], [1]] [1, 0]) [[0]] = .ok [1] := by
  constructor
  · simp +decide [predict, fit, init, predictOne, gatherLabels, mapExcept, scalarDist,
      calculateDistance, sqDist, argsort, List.insertionSort,
      List.orderedInsert, rankLE, mostCommon]
  · simp +decide [predict, fit, init, predictOne, gatherLabels, mapExcept, scalarDist,
      calculateDistance, sqDist, argsort, List.insertionSort,
      List.orderedInsert, rankLE, mostCommon, bincount, argmaxIdx, listMaxNat]
